import Mathlib

/-!
Verification of the physics engine in `src/physics.rs` (a 2D particle
sandbox built on nannou).  The engine is shallowly embedded: `f32`
scalars are modelled by `ℚ` (the source only adds, subtracts, multiplies,
divides and compares, and every claim restricts itself to the exact
arithmetic reading of those operations), `Vec2` is a pair of scalars,
`u32`/`usize` are modelled by `Nat` with explicit wrap-around `% 2^32`
resp. `% 2^64` exactly where the machine width matters.
-/

namespace NannouPhysics

/-- `nannou::glam::Vec2`: a 2-component vector, components modelled by `ℚ`. -/
structure Vec2 where
  x : ℚ
  y : ℚ
deriving DecidableEq, Repr

namespace Vec2

@[ext] theorem ext2 {a b : Vec2} (hx : a.x = b.x) (hy : a.y = b.y) : a = b := by
  cases a; cases b; simp_all

instance : Add Vec2 := ⟨fun a b => ⟨a.x + b.x, a.y + b.y⟩⟩
instance : Sub Vec2 := ⟨fun a b => ⟨a.x - b.x, a.y - b.y⟩⟩

/-- `Vec2 * f32` (component-wise scaling, as in `acc * self.scale`). -/
instance : HMul Vec2 ℚ Vec2 := ⟨fun a s => ⟨a.x * s, a.y * s⟩⟩

/-- `Vec2 / f32` (component-wise division, as in `particle.force / particle.mass`). -/
instance : HDiv Vec2 ℚ Vec2 := ⟨fun a s => ⟨a.x / s, a.y / s⟩⟩

/-- `Vec2::ZERO`. -/
def ZERO : Vec2 := ⟨0, 0⟩

@[simp] theorem add_x (a b : Vec2) : (a + b).x = a.x + b.x := rfl
@[simp] theorem add_y (a b : Vec2) : (a + b).y = a.y + b.y := rfl
@[simp] theorem sub_x (a b : Vec2) : (a - b).x = a.x - b.x := rfl
@[simp] theorem sub_y (a b : Vec2) : (a - b).y = a.y - b.y := rfl
@[simp] theorem smul_x (a : Vec2) (s : ℚ) : (a * s).x = a.x * s := rfl
@[simp] theorem smul_y (a : Vec2) (s : ℚ) : (a * s).y = a.y * s := rfl
@[simp] theorem sdiv_x (a : Vec2) (s : ℚ) : (a / s).x = a.x / s := rfl
@[simp] theorem sdiv_y (a : Vec2) (s : ℚ) : (a / s).y = a.y / s := rfl
@[simp] theorem zero_x : ZERO.x = 0 := rfl
@[simp] theorem zero_y : ZERO.y = 0 := rfl

end Vec2

/-- `nannou::draw::mesh::vertex::Color`: an RGBA payload the engine stores but
never interprets. -/
structure Color where
  r : ℚ
  g : ℚ
  b : ℚ
  a : ℚ
deriving DecidableEq, Repr

/-- `Particle` (physics.rs lines 3-14).  `id` is a `u32`; it is modelled by a
`Nat` (every id the engine ever produces is `< 2^32`, see `next_id`). -/
structure Particle where
  pos : Vec2
  old_pos : Vec2
  force : Vec2
  mass : ℚ
  radius : ℚ
  colour : Color
  restitution : ℚ
  id : Nat
deriving DecidableEq, Repr

/-- `Particle::new` (physics.rs lines 17-28): `old_pos` starts at `pos`,
`force` at zero, `restitution` is the literal `0.85`. -/
def Particle.new (pos : Vec2) (mass radius : ℚ) (colour : Color) (id : Nat) : Particle :=
  { pos := pos
    old_pos := pos
    force := Vec2.ZERO
    mass := mass
    radius := radius
    colour := colour
    restitution := 85 / 100
    id := id }

/-- `Particle::add_impulse` (physics.rs lines 30-32). -/
def Particle.add_impulse (p : Particle) (amount_x amount_y : ℚ) : Particle :=
  { p with force := p.force + ⟨amount_x, amount_y⟩ }

/-- `Stick` (physics.rs lines 35-39). -/
structure Stick where
  id_1 : Nat
  id_2 : Nat
  distance : ℚ
deriving DecidableEq, Repr

/-- `PhysicsWorld` (physics.rs lines 41-48). -/
structure PhysicsWorld where
  objects : List Particle
  connections : List Stick
  gravity : ℚ
  world_bounds : Vec2
  scale : ℚ
  current_id : Nat
deriving DecidableEq, Repr

/-- Width of the source's `u32` id counter. -/
def U32 : Nat := 2 ^ 32

/-- Width of `usize` on the 64-bit targets the repository builds for. -/
def USIZE : Nat := 2 ^ 64

namespace PhysicsWorld

/-- `PhysicsWorld::new` (physics.rs lines 52-61). -/
def new (gravity : ℚ) (world_bounds : Vec2) (scale : ℚ) : PhysicsWorld :=
  { objects := []
    connections := []
    gravity := gravity
    world_bounds := world_bounds
    scale := scale
    current_id := 0 }

/-- `PhysicsWorld::set_bounds` (physics.rs lines 63-67). -/
def set_bounds (w : PhysicsWorld) (new_bounds : Vec2) : PhysicsWorld :=
  if w.world_bounds ≠ new_bounds then { w with world_bounds := new_bounds } else w

/-- `PhysicsWorld::next_id` (physics.rs lines 69-73): returns the current
counter and increments it.  The counter is a `u32`, so the increment wraps at
`2^32`.  (The source performs this mutation through `&self`; the mutation
itself is what is modelled here, as a value-level state transition.) -/
def next_id (w : PhysicsWorld) : Nat × PhysicsWorld :=
  (w.current_id, { w with current_id := (w.current_id + 1) % U32 })

/-- `PhysicsWorld::add_object` (physics.rs lines 98-100): `Vec::push`. -/
def add_object (w : PhysicsWorld) (object : Particle) : PhysicsWorld :=
  { w with objects := w.objects ++ [object] }

/-- `PhysicsWorld::add_stick` (physics.rs lines 106-108). -/
def add_stick (w : PhysicsWorld) (stick : Stick) : PhysicsWorld :=
  { w with connections := w.connections ++ [stick] }

/-- `PhysicsWorld::clear` (physics.rs lines 110-113): clears both vectors,
touches nothing else. -/
def clear (w : PhysicsWorld) : PhysicsWorld :=
  { w with objects := [], connections := [] }

/-- `PhysicsWorld::add_impulses` (physics.rs lines 115-119). -/
def add_impulses (w : PhysicsWorld) (amount_x amount_y : ℚ) : PhysicsWorld :=
  { w with objects := w.objects.map (fun p => p.add_impulse amount_x amount_y) }

end PhysicsWorld

/-- The body of the per-particle loop of `PhysicsWorld::step`
(physics.rs lines 123-160), translated statement by statement.
The `acc.y -= self.gravity` at line 138 has no observable effect
(`acc` is dead afterwards) and so contributes nothing here. -/
def stepParticle (gravity : ℚ) (world_bounds : Vec2) (scale : ℚ) (delta_time : ℚ)
    (particle : Particle) : Particle :=
  -- let vel = particle.pos - particle.old_pos;
  let vel := particle.pos - particle.old_pos
  -- particle.old_pos = particle.pos;
  let old0 := particle.pos
  -- let mut acc = particle.force / particle.mass; acc.y += self.gravity;
  let acc0 := particle.force / particle.mass
  let acc : Vec2 := ⟨acc0.x, acc0.y + gravity⟩
  -- particle.pos += vel + acc*self.scale * delta_time * delta_time;
  let pos0 := particle.pos + (vel + acc * scale * delta_time * delta_time)
  -- bottom / top checks (else-if, physics.rs lines 141-147)
  let yres : ℚ × ℚ :=
    if pos0.y - particle.radius < -world_bounds.y / 2 then
      let py := -world_bounds.y / 2 + particle.radius
      (py, py + vel.y)
    else if pos0.y + particle.radius > world_bounds.y / 2 then
      let py := world_bounds.y / 2 - particle.radius
      (py, py + vel.y)
    else (pos0.y, old0.y)
  -- left / right checks (else-if, physics.rs lines 150-156)
  let xres : ℚ × ℚ :=
    if pos0.x - particle.radius < -world_bounds.x / 2 then
      let px := -world_bounds.x / 2 + particle.radius
      (px, px + vel.x)
    else if pos0.x + particle.radius > world_bounds.x / 2 then
      let px := world_bounds.x / 2 - particle.radius
      (px, px + vel.x)
    else (pos0.x, old0.x)
  -- particle.force = Vec2::ZERO
  { particle with
      pos := ⟨xres.1, yres.1⟩
      old_pos := ⟨xres.2, yres.2⟩
      force := Vec2.ZERO }

/-- `PhysicsWorld::step` (physics.rs lines 122-161). -/
def PhysicsWorld.step (w : PhysicsWorld) (delta_time : ℚ) : PhysicsWorld :=
  { w with objects := w.objects.map (stepParticle w.gravity w.world_bounds w.scale delta_time) }

/-- `n` consecutive `step(dt)` calls. -/
def stepN (w : PhysicsWorld) (dt : ℚ) : Nat → PhysicsWorld
  | 0 => w
  | n + 1 => (stepN w dt n).step dt

/-! ### C7: `clear` empties the collections, changes nothing else, idempotent -/

/-- C7.  `clear()` empties both the particle and stick collections and leaves
every other field (id counter, gravity, bounds, scale) unchanged; on an
already-cleared world it is a no-op, so `clear` is idempotent. -/
theorem clear_frame (w : NannouPhysics.PhysicsWorld) :
    w.clear.objects = [] ∧ w.clear.connections = [] ∧
    w.clear.current_id = w.current_id ∧ w.clear.gravity = w.gravity ∧
    w.clear.world_bounds = w.world_bounds ∧ w.clear.scale = w.scale ∧
    w.clear.clear = w.clear := by
  refine ⟨rfl, rfl, rfl, rfl, rfl, rfl, rfl⟩

/-! ### C10: the constructor's fixed initial state -/

/-- C10.  For every argument tuple, `Particle::new` returns a particle whose
`old_pos` equals its `pos` (zero implicit velocity), whose accumulated force is
zero and whose restitution is the fixed literal `0.85`; since this holds for
all constructor arguments, the caller can choose neither the initial implicit
velocity nor the initial restitution. -/
theorem particle_new_initial_state (pos : Vec2) (mass radius : ℚ) (colour : Color) (id : Nat) :
    (Particle.new pos mass radius colour id).old_pos = pos ∧
    (Particle.new pos mass radius colour id).pos -
      (Particle.new pos mass radius colour id).old_pos = Vec2.ZERO ∧
    (Particle.new pos mass radius colour id).force = Vec2.ZERO ∧
    (Particle.new pos mass radius colour id).restitution = 85 / 100 := by
  refine ⟨rfl, ?_, rfl, rfl⟩
  ext <;> simp [Particle.new]

/-! ### C8: impulse broadcast and per-step force reset -/

/-- C8.  `add_impulses(dx, dy)` adds exactly `(dx, dy)` to every particle's
accumulated force and changes nothing else (neither the other particle fields
nor any world field); and after any `step(dt)` call every particle's
accumulated force is zero, so an impulse affects exactly one subsequent step. -/
theorem add_impulses_exact (w : NannouPhysics.PhysicsWorld) (dx dy dt : ℚ) :
    (w.add_impulses dx dy).objects =
      w.objects.map (fun p => { p with force := p.force + ⟨dx, dy⟩ }) ∧
    (w.add_impulses dx dy).connections = w.connections ∧
    (w.add_impulses dx dy).gravity = w.gravity ∧
    (w.add_impulses dx dy).world_bounds = w.world_bounds ∧
    (w.add_impulses dx dy).scale = w.scale ∧
    (w.add_impulses dx dy).current_id = w.current_id ∧
    (∀ p ∈ (w.step dt).objects, p.force = Vec2.ZERO) := by
  refine ⟨rfl, rfl, rfl, rfl, rfl, rfl, ?_⟩
  intro p hp
  simp only [PhysicsWorld.step, List.mem_map] at hp
  obtain ⟨q, -, rfl⟩ := hp
  rfl

/-! ### C1: the step matches the Mode B Verlet reference definition

`modeBAxis` and `modeBReferenceStep` are written from the spec's words
(§4.3 Mode B steps 1-7), not from the source, so that `step_matches_modeB`
is a genuine source-vs-spec comparison. -/

/-- Spec §4.3 Mode B step 6, one axis: on a violation of either side, snap the
position to the radius-adjusted boundary and set the previous position on that
axis to `position + velocity` on that axis; the two sides of one axis are
mutually exclusive.  Arguments: half-extent of the bounds on this axis, the
radius, the tentative position, the previous position, the implicit-velocity
component.  Returns (position, previous position) on this axis. -/
def modeBAxis (halfExtent radius pos prev v : ℚ) : ℚ × ℚ :=
  if pos - radius < -halfExtent then (-halfExtent + radius, (-halfExtent + radius) + v)
  else if pos + radius > halfExtent then (halfExtent - radius, (halfExtent - radius) + v)
  else (pos, prev)

/-- Spec §4.3 Mode B, steps 1-7 as the spec words them: derive
`v = position - previous_position`; set `previous_position` to the old
position; `acceleration = accumulated_force / mass` with gravity added to its
y component; `position += v + acceleration * scale * dt^2`; resolve boundary
collisions per axis, y axis first then x axis; reset `accumulated_force`. -/
def modeBReferenceStep (gravity : ℚ) (bounds : Vec2) (scale : ℚ) (dt : ℚ)
    (p : Particle) : Particle :=
  let v := p.pos - p.old_pos
  let prev := p.pos
  let accBase := p.force / p.mass
  let acceleration : Vec2 := ⟨accBase.x, accBase.y + gravity⟩
  let position := p.pos + v + acceleration * scale * dt ^ 2
  let yr := modeBAxis (bounds.y / 2) p.radius position.y prev.y v.y
  let xr := modeBAxis (bounds.x / 2) p.radius position.x prev.x v.x
  { p with
      pos := ⟨xr.1, yr.1⟩
      old_pos := ⟨xr.2, yr.2⟩
      force := Vec2.ZERO }

/-- C1.  For every particle with positive mass, the source's per-particle step
body agrees exactly with the spec's Mode B Verlet reference definition. -/
theorem step_matches_modeB (gravity : ℚ) (bounds : Vec2) (scale : ℚ) (dt : ℚ)
    (p : Particle) (hm : 0 < p.mass) :
    stepParticle gravity bounds scale dt p = modeBReferenceStep gravity bounds scale dt p := by
  have hx : (p.pos + (p.pos - p.old_pos +
        ((⟨(p.force / p.mass).x, (p.force / p.mass).y + gravity⟩ : Vec2) * scale * dt * dt))).x
      = (p.pos + (p.pos - p.old_pos) +
        ((⟨(p.force / p.mass).x, (p.force / p.mass).y + gravity⟩ : Vec2) * scale * dt ^ 2)).x := by
    simp; ring
  have hy : (p.pos + (p.pos - p.old_pos +
        ((⟨(p.force / p.mass).x, (p.force / p.mass).y + gravity⟩ : Vec2) * scale * dt * dt))).y
      = (p.pos + (p.pos - p.old_pos) +
        ((⟨(p.force / p.mass).x, (p.force / p.mass).y + gravity⟩ : Vec2) * scale * dt ^ 2)).y := by
    simp; ring
  simp only [stepParticle, modeBReferenceStep, modeBAxis, hx, hy, neg_div]

/-- Witness for C1 at a concrete particle with mass `2`. -/
theorem step_matches_modeB_witness :
    stepParticle (-10) ⟨800, 600⟩ 1 (1/2)
        { pos := ⟨3, 4⟩, old_pos := ⟨1, 1⟩, force := ⟨6, 8⟩, mass := 2, radius := 5,
          colour := ⟨1, 1, 1, 1⟩, restitution := 85/100, id := 0 }
      = modeBReferenceStep (-10) ⟨800, 600⟩ 1 (1/2)
        { pos := ⟨3, 4⟩, old_pos := ⟨1, 1⟩, force := ⟨6, 8⟩, mass := 2, radius := 5,
          colour := ⟨1, 1, 1, 1⟩, restitution := 85/100, id := 0 } :=
  step_matches_modeB (-10) ⟨800, 600⟩ 1 (1/2) _ (by norm_num)

/-! ### C2: boundary containment after every step -/

theorem stepParticle_radius (g : ℚ) (b : Vec2) (s dt : ℚ) (p : Particle) :
    (stepParticle g b s dt p).radius = p.radius := rfl

theorem stepN_world_bounds (w : PhysicsWorld) (dt : ℚ) (n : Nat) :
    (stepN w dt n).world_bounds = w.world_bounds := by
  induction n with
  | zero => rfl
  | succ m ih => simpa [stepN, PhysicsWorld.step] using ih

theorem stepN_radius_mem (w : PhysicsWorld) (dt : ℚ) (n : Nat) :
    ∀ p ∈ (stepN w dt n).objects, ∃ q ∈ w.objects, p.radius = q.radius := by
  induction n with
  | zero => intro p hp; exact ⟨p, hp, rfl⟩
  | succ m ih =>
    intro p hp
    simp only [stepN, PhysicsWorld.step, List.mem_map] at hp
    obtain ⟨q, hq, rfl⟩ := hp
    exact ih q hq

theorem stepParticle_contained (g : ℚ) (b : Vec2) (s dt : ℚ) (p : Particle)
    (h0 : 0 ≤ p.radius) (hbx : p.radius ≤ b.x) (hby : p.radius ≤ b.y) :
    |(stepParticle g b s dt p).pos.x| ≤ b.x / 2 ∧
    |(stepParticle g b s dt p).pos.y| ≤ b.y / 2 := by
  constructor
  · simp only [stepParticle]
    split_ifs with h1 h2 <;> (rw [abs_le]; constructor <;> simp_all <;> linarith)
  · simp only [stepParticle]
    split_ifs with h1 h2 <;> (rw [abs_le]; constructor <;> simp_all <;> linarith)

/-- C2 (amended).  If every particle's radius is nonnegative and no larger
than the bounds' extent on each axis (so the snapped positions themselves lie
inside the bounds), then after every positive number of consecutive `step(dt)`
calls every particle satisfies `|pos.x| ≤ bounds.x/2` and
`|pos.y| ≤ bounds.y/2`. -/
theorem boundary_containment (w : PhysicsWorld) (dt : ℚ) (n : Nat) (hn : 1 ≤ n)
    (hrad : ∀ p ∈ w.objects,
      0 ≤ p.radius ∧ p.radius ≤ w.world_bounds.x ∧ p.radius ≤ w.world_bounds.y) :
    ∀ p ∈ (stepN w dt n).objects,
      |p.pos.x| ≤ w.world_bounds.x / 2 ∧ |p.pos.y| ≤ w.world_bounds.y / 2 := by
  obtain ⟨m, rfl⟩ : ∃ m, n = m + 1 := ⟨n - 1, by omega⟩
  intro p hp
  simp only [stepN, PhysicsWorld.step, List.mem_map] at hp
  obtain ⟨q, hq, rfl⟩ := hp
  obtain ⟨q0, hq0, hrq⟩ := stepN_radius_mem w dt m q hq
  obtain ⟨h0, hbx, hby⟩ := hrad q0 hq0
  rw [stepN_world_bounds]
  exact stepParticle_contained _ _ _ _ q (hrq ▸ h0) (hrq ▸ hbx) (hrq ▸ hby)

/-- The particle of the C2 witness: radius `1`, launched fast enough to hit
the wall in one step. -/
def witParticle : Particle :=
  { pos := ⟨0, 0⟩, old_pos := ⟨-9, 3⟩, force := Vec2.ZERO, mass := 1,
    radius := 1, colour := ⟨0, 0, 0, 1⟩, restitution := 85/100, id := 0 }

/-- The world of the C2 witness: bounds `(4,4)`, zero gravity. -/
def witWorld : PhysicsWorld :=
  { objects := [witParticle], connections := [], gravity := 0,
    world_bounds := ⟨4, 4⟩, scale := 1, current_id := 1 }

/-- Witness for C2: the one particle of `witWorld` after one step. -/
theorem boundary_containment_witness :
    |(stepParticle witWorld.gravity witWorld.world_bounds witWorld.scale 1
        witParticle).pos.x| ≤ witWorld.world_bounds.x / 2 ∧
    |(stepParticle witWorld.gravity witWorld.world_bounds witWorld.scale 1
        witParticle).pos.y| ≤ witWorld.world_bounds.y / 2 := by
  have hmem : stepParticle witWorld.gravity witWorld.world_bounds witWorld.scale 1
      witParticle ∈ (stepN witWorld 1 1).objects := by
    show stepParticle witWorld.gravity witWorld.world_bounds witWorld.scale 1 witParticle
      ∈ [stepParticle witWorld.gravity witWorld.world_bounds witWorld.scale 1 witParticle]
    exact List.mem_singleton.mpr rfl
  exact boundary_containment witWorld 1 1 le_rfl (by decide) _ hmem

/-- The world of the C2 counterexample: a particle whose radius `10` exceeds
the bounds `(1,1)`, so snapping to the radius-adjusted boundary moves it
outside the bounds. -/
def cexWorld : PhysicsWorld :=
  { objects := [{ pos := ⟨0, 0⟩, old_pos := ⟨0, 0⟩, force := Vec2.ZERO, mass := 1,
                  radius := 10, colour := ⟨0, 0, 0, 1⟩, restitution := 85/100, id := 0 }],
    connections := [], gravity := 0, world_bounds := ⟨1, 1⟩, scale := 1, current_id := 1 }

/-- Counterexample to C2 as stated: with bounds `(1,1)` and a particle of
radius `10`, one `step` leaves the particle at `(19/2, 19/2)`, outside the
half-extents. -/
theorem boundary_containment_cex :
    ¬ (∀ p ∈ (stepN cexWorld 1 1).objects,
        |p.pos.x| ≤ cexWorld.world_bounds.x / 2 ∧
        |p.pos.y| ≤ cexWorld.world_bounds.y / 2) := by
  intro h
  have hmem : ({ pos := ⟨19/2, 19/2⟩, old_pos := ⟨19/2, 19/2⟩, force := Vec2.ZERO, mass := 1,
                 radius := 10, colour := ⟨0, 0, 0, 1⟩, restitution := 85/100,
                 id := 0 } : Particle) ∈ (stepN cexWorld 1 1).objects := by
    norm_num [stepN, PhysicsWorld.step, cexWorld, stepParticle, Vec2.ZERO]
  obtain ⟨-, hy⟩ := h _ hmem
  have h2 : |(19 / 2 : ℚ)| ≤ 1 / 2 := hy
  rw [abs_of_pos (by norm_num)] at h2
  norm_num at h2

/-! ### C9: speed invariance with zero gravity and no impulses -/

/-- Squared magnitude of the implicit velocity `pos - old_pos`. -/
def Particle.speedSq (p : Particle) : ℚ :=
  (p.pos - p.old_pos).x ^ 2 + (p.pos - p.old_pos).y ^ 2

theorem stepN_gravity (w : PhysicsWorld) (dt : ℚ) (n : Nat) :
    (stepN w dt n).gravity = w.gravity := by
  induction n with
  | zero => rfl
  | succ m ih => simpa [stepN, PhysicsWorld.step] using ih

theorem stepN_force_zero (w : PhysicsWorld) (dt : ℚ) (n : Nat)
    (hf : ∀ p ∈ w.objects, p.force = Vec2.ZERO) :
    ∀ p ∈ (stepN w dt n).objects, p.force = Vec2.ZERO := by
  induction n with
  | zero => exact hf
  | succ m ih =>
    intro p hp
    simp only [stepN, PhysicsWorld.step, List.mem_map] at hp
    obtain ⟨q, -, rfl⟩ := hp
    rfl

theorem stepParticle_speedSq (b : Vec2) (s dt : ℚ) (p : Particle)
    (hfz : p.force = Vec2.ZERO) :
    Particle.speedSq (stepParticle 0 b s dt p) = Particle.speedSq p := by
  simp only [stepParticle, Particle.speedSq, hfz]
  simp only [Vec2.sdiv_x, Vec2.sdiv_y, Vec2.zero_x, Vec2.zero_y, zero_div, add_zero,
    Vec2.smul_x, Vec2.smul_y, Vec2.add_x, Vec2.add_y, Vec2.sub_x, Vec2.sub_y,
    zero_mul, mul_zero,
    apply_ite (Prod.fst (α := ℚ) (β := ℚ)), apply_ite (Prod.snd (α := ℚ) (β := ℚ))]
  split_ifs <;> ring

/-- C9.  In a world with zero gravity whose particles carry no accumulated
force (and, as the claim phrases it, restitution `1.0` — the step never reads
restitution, and every collision it resolves is a perpendicular wall
reflection), each particle's speed `√((pos - old_pos).x² + (pos - old_pos).y²)`
is unchanged by any number of `step` calls. -/
theorem speed_invariant (w : PhysicsWorld) (dt : ℚ) (n : Nat)
    (hg : w.gravity = 0)
    (hf : ∀ p ∈ w.objects, p.force = Vec2.ZERO)
    (hr : ∀ p ∈ w.objects, p.restitution = 1) :
    (stepN w dt n).objects.map (fun p => Real.sqrt (p.speedSq : ℚ)) =
      w.objects.map (fun p => Real.sqrt (p.speedSq : ℚ)) := by
  have hq : ∀ m, (stepN w dt m).objects.map Particle.speedSq =
      w.objects.map Particle.speedSq := by
    intro m
    induction m with
    | zero => rfl
    | succ k ih =>
      have hgk : (stepN w dt k).gravity = 0 := (stepN_gravity w dt k).trans hg
      calc (stepN w dt (k + 1)).objects.map Particle.speedSq
          = (stepN w dt k).objects.map Particle.speedSq := by
            simp only [stepN, PhysicsWorld.step, List.map_map]
            refine List.map_congr_left ?_
            intro p hp
            simp only [Function.comp_apply, hgk]
            exact stepParticle_speedSq _ _ _ p (stepN_force_zero w dt k hf p hp)
        _ = w.objects.map Particle.speedSq := ih
  have hsqrt : ∀ (l₁ l₂ : List Particle),
      l₁.map Particle.speedSq = l₂.map Particle.speedSq →
      l₁.map (fun p => Real.sqrt (p.speedSq : ℚ)) =
        l₂.map (fun p => Real.sqrt (p.speedSq : ℚ)) := by
    intro l₁ l₂ h
    have : ∀ l : List Particle, l.map (fun p => Real.sqrt (p.speedSq : ℚ)) =
        (l.map Particle.speedSq).map (fun q : ℚ => Real.sqrt (q : ℚ)) := by
      intro l; rw [List.map_map]; rfl
    rw [this l₁, this l₂, h]
  exact hsqrt _ _ (hq n)

/-- Witness for C9: one particle bouncing off the floor of a `(10,10)` box
with zero gravity, restitution `1`, over three steps. -/
theorem speed_invariant_witness :
    (stepN
        { objects := [{ pos := ⟨0, -2⟩, old_pos := ⟨1, 1⟩, force := Vec2.ZERO, mass := 1,
                        radius := 1, colour := ⟨0, 0, 0, 1⟩, restitution := 1, id := 0 }],
          connections := [], gravity := 0, world_bounds := ⟨10, 10⟩, scale := 1,
          current_id := 1 } 1 3).objects.map (fun p => Real.sqrt (p.speedSq : ℚ)) =
      [({ pos := ⟨0, -2⟩, old_pos := ⟨1, 1⟩, force := Vec2.ZERO, mass := 1,
          radius := 1, colour := ⟨0, 0, 0, 1⟩, restitution := 1,
          id := 0 } : Particle)].map (fun p => Real.sqrt (p.speedSq : ℚ)) :=
  speed_invariant _ 1 3 rfl (by decide) (by decide)

/-! ### C3 / C4: `get_particle_by_id` (binary search over the id-sorted vector)

The loop of physics.rs lines 76-91 works on `usize` indices.  Unsigned
subtraction is modelled with release-build wrap-around at `2^64`; a wrapped
index is then caught by the bounds check of `self.objects[mid]`, so the model
marks the resulting panic with `none`.  (In a debug build the same inputs
already panic at the subtraction; either way the call fails rather than
returning.) -/

/-- The `while left <= right` loop of `get_particle_by_id`, with explicit
fuel.  `none` models a panic (out-of-bounds `self.objects[mid]`, or fuel
exhaustion, which the fuel chosen in `get_particle_by_id` makes unreachable
on the sorted worlds considered here); `some none` is Rust's `None`;
`some (some p)` is `Some(p)`. -/
def searchLoop (objects : List Particle) (target_id : Nat) :
    Nat → Nat → Nat → Option (Option Particle)
  | 0, _, _ => none
  | fuel + 1, left, right =>
    if left ≤ right then
      let mid := left + (right - left) / 2
      match objects[mid]? with
      | none => none
      | some obj =>
        if obj.id = target_id then some (some obj)
        else if obj.id < target_id then
          searchLoop objects target_id fuel ((mid + 1) % USIZE) right
        else
          searchLoop objects target_id fuel left ((mid + (USIZE - 1)) % USIZE)
    else some none

/-- `PhysicsWorld::get_particle_by_id` (physics.rs lines 75-92).  `right`
starts at `self.objects.len() - 1`, an unsigned subtraction that wraps on an
empty vector.  The fuel `length + 1` bounds the loop's iteration count from
above whenever the loop terminates normally (the interval shrinks every
iteration). -/
def PhysicsWorld.get_particle_by_id (w : PhysicsWorld) (target_id : Nat) :
    Option (Option Particle) :=
  searchLoop w.objects target_id (w.objects.length + 1) 0
    ((w.objects.length + (USIZE - 1)) % USIZE)

theorem USIZE_eq : USIZE = 18446744073709551616 := by norm_num [USIZE]

theorem searchLoop_found (L : List Particle) (target : Nat)
    (hids : ∀ (j : Nat) (hj : j < L.length), (L[j]).id = j)
    (hsize : L.length < USIZE) :
    ∀ fuel left right, left ≤ target → target ≤ right → right < L.length →
      right - left < fuel →
      ∃ p, searchLoop L target fuel left right = some (some p) ∧ p.id = target := by
  intro fuel
  induction fuel with
  | zero => intro left right _ _ _ hfuel; omega
  | succ fuel ih =>
    intro left right hl ht hr hfuel
    have hlr : left ≤ right := le_trans hl ht
    have hmidle : left + (right - left) / 2 ≤ right := by omega
    have hmidge : left ≤ left + (right - left) / 2 := by omega
    have hmidlt : left + (right - left) / 2 < L.length := lt_of_le_of_lt hmidle hr
    have hsome : L[left + (right - left) / 2]? = some (L[left + (right - left) / 2]) :=
      List.getElem?_eq_getElem hmidlt
    have hid : (L[left + (right - left) / 2]).id = left + (right - left) / 2 :=
      hids _ hmidlt
    rcases lt_trichotomy (left + (right - left) / 2) target with hcase | hcase | hcase
    · -- middle id below the target: recurse right
      have hmod : (left + (right - left) / 2 + 1) % USIZE = left + (right - left) / 2 + 1 :=
        Nat.mod_eq_of_lt (lt_of_le_of_lt (by omega) hsize)
      obtain ⟨p, hrec, hp⟩ := ih (left + (right - left) / 2 + 1) right (by omega) ht hr (by omega)
      refine ⟨p, ?_, hp⟩
      simp only [searchLoop, if_pos hlr, hsome]
      rw [if_neg (by omega), if_pos (by omega), hmod]
      exact hrec
    · -- middle id is the target: found
      refine ⟨L[left + (right - left) / 2], ?_, by rw [hid, hcase]⟩
      simp only [searchLoop, if_pos hlr, hsome]
      rw [if_pos (by omega)]
    · -- middle id above the target: recurse left
      have hmidsize : left + (right - left) / 2 < USIZE := lt_trans hmidlt hsize
      have hmod : (left + (right - left) / 2 + (USIZE - 1)) % USIZE
          = left + (right - left) / 2 - 1 := by
        rw [USIZE_eq]; rw [USIZE_eq] at hmidsize; omega
      obtain ⟨p, hrec, hp⟩ :=
        ih left (left + (right - left) / 2 - 1) hl (by omega) (by omega) (by omega)
      refine ⟨p, ?_, hp⟩
      simp only [searchLoop, if_pos hlr, hsome]
      rw [if_neg (by omega), if_neg (by omega), hmod]
      exact hrec

theorem searchLoop_not_found (L : List Particle) (target : Nat)
    (hids : ∀ (j : Nat) (hj : j < L.length), (L[j]).id = j)
    (hsize : L.length < USIZE) (htarget : L.length ≤ target) :
    ∀ fuel left right, right < L.length → right + 1 - left < fuel →
      searchLoop L target fuel left right = some none := by
  intro fuel
  induction fuel with
  | zero => intro left right _ hfuel; omega
  | succ fuel ih =>
    intro left right hr hfuel
    by_cases hlr : left ≤ right
    · have hmidle : left + (right - left) / 2 ≤ right := by omega
      have hmidlt : left + (right - left) / 2 < L.length := lt_of_le_of_lt hmidle hr
      have hsome : L[left + (right - left) / 2]? = some (L[left + (right - left) / 2]) :=
        List.getElem?_eq_getElem hmidlt
      have hid : (L[left + (right - left) / 2]).id = left + (right - left) / 2 :=
        hids _ hmidlt
      have hlt : left + (right - left) / 2 < target := lt_of_lt_of_le hmidlt htarget
      have hmod : (left + (right - left) / 2 + 1) % USIZE = left + (right - left) / 2 + 1 :=
        Nat.mod_eq_of_lt (lt_of_le_of_lt (by omega) hsize)
      simp only [searchLoop, if_pos hlr, hsome]
      rw [if_neg (by omega), if_pos (by omega), hmod]
      exact ih (left + (right - left) / 2 + 1) right hr (by omega)
    · simp only [searchLoop, if_neg hlr]

/-- C3.  For a non-empty World whose particles were inserted in order with ids
`0, 1, ..., k` (so position `j` holds id `j`), `get_particle_by_id(i)` returns
the particle whose id is `i` for every `i ≤ k`, and returns `None` (without
panicking) for every `i > k`. -/
theorem find_particle_by_id_correct (w : PhysicsWorld) (k : Nat)
    (hlen : w.objects.length = k + 1)
    (hsize : w.objects.length < USIZE)
    (hids : ∀ (j : Nat) (hj : j < w.objects.length), (w.objects[j]).id = j) :
    (∀ i ≤ k, ∃ p, w.get_particle_by_id i = some (some p) ∧ p.id = i) ∧
    (∀ i, k < i → w.get_particle_by_id i = some none) := by
  have hk : k < w.objects.length := by omega
  have hkU : k < USIZE := lt_trans hk hsize
  have hright : (w.objects.length + (USIZE - 1)) % USIZE = k := by
    rw [hlen, USIZE_eq]; rw [USIZE_eq] at hkU; omega
  constructor
  · intro i hi
    have := searchLoop_found w.objects i hids hsize (w.objects.length + 1) 0 k
      (Nat.zero_le i) hi hk (by omega)
    rw [PhysicsWorld.get_particle_by_id, hright]
    exact this
  · intro i hi
    have := searchLoop_not_found w.objects i hids hsize (by omega)
      (w.objects.length + 1) 0 k hk (by omega)
    rw [PhysicsWorld.get_particle_by_id, hright]
    exact this

/-- Witness for C3: a world holding particles with ids `0` and `1` (`k = 1`). -/
theorem find_particle_by_id_correct_witness :
    (∀ i ≤ 1, ∃ p,
        ({ objects := [Particle.new ⟨0, 0⟩ 1 1 ⟨0, 0, 0, 1⟩ 0,
                       Particle.new ⟨2, 2⟩ 1 1 ⟨0, 0, 0, 1⟩ 1],
           connections := [], gravity := 0, world_bounds := ⟨4, 4⟩, scale := 1,
           current_id := 2 } : PhysicsWorld).get_particle_by_id i = some (some p) ∧
        p.id = i) ∧
    (∀ i, 1 < i →
        ({ objects := [Particle.new ⟨0, 0⟩ 1 1 ⟨0, 0, 0, 1⟩ 0,
                       Particle.new ⟨2, 2⟩ 1 1 ⟨0, 0, 0, 1⟩ 1],
           connections := [], gravity := 0, world_bounds := ⟨4, 4⟩, scale := 1,
           current_id := 2 } : PhysicsWorld).get_particle_by_id i = some none) :=
  find_particle_by_id_correct _ 1 rfl (by decide) (by decide)

/-- C4.  On a World whose particle collection is empty, `get_particle_by_id`
does not return "not found": the initial `self.objects.len() - 1` underflows
(wrapping to `2^64 - 1`), the loop is entered with `left = 0 ≤ right`, and the
huge `mid` hits the bounds check of `self.objects[mid]` — the call panics
(modelled by `none`). -/
theorem get_particle_by_id_empty_panics (w : PhysicsWorld) (hw : w.objects = [])
    (target : Nat) :
    w.get_particle_by_id target = none := by
  simp only [PhysicsWorld.get_particle_by_id, hw, List.length_nil, Nat.zero_add]
  have h1 : (USIZE - 1) % USIZE = USIZE - 1 := by
    have h3 : USIZE - 1 < USIZE := by rw [USIZE_eq]; omega
    exact Nat.mod_eq_of_lt h3
  have h2 : 0 ≤ USIZE - 1 := Nat.zero_le _
  simp only [searchLoop, h1, if_pos h2, List.getElem?_nil]

/-- Witness for C4 on a freshly constructed (hence empty) world. -/
theorem get_particle_by_id_empty_panics_witness :
    (PhysicsWorld.new 0 ⟨0, 0⟩ 0).get_particle_by_id 0 = none :=
  get_particle_by_id_empty_panics _ rfl 0

/-! ### C5 / C6: operation sequences on a world -/

/-- A call the external driver can make on a constructed world. -/
inductive WorldOp where
  | add (p : Particle)
  | clear
  | step (dt : ℚ)
  | impulse (dx dy : ℚ)
  | addStick (s : Stick)
  | allocId
  | setBounds (b : Vec2)
deriving DecidableEq

/-- Execute one operation (dropping the value `next_id` returns). -/
def applyOp (w : PhysicsWorld) : WorldOp → PhysicsWorld
  | .add p => w.add_object p
  | .clear => w.clear
  | .step dt => w.step dt
  | .impulse dx dy => w.add_impulses dx dy
  | .addStick s => w.add_stick s
  | .allocId => w.next_id.2
  | .setBounds b => w.set_bounds b

/-- Execute a sequence of operations, left to right. -/
def applyOps (w : PhysicsWorld) : List WorldOp → PhysicsWorld
  | [] => w
  | op :: ops => applyOps (applyOp w op) ops

/-- The §4.2 caller precondition, checked along a run: every `add_object` call
appends a particle whose id is strictly greater than every id already present
at that moment. -/
def addPreOK (w : PhysicsWorld) : List WorldOp → Bool
  | [] => true
  | .add p :: ops =>
    (w.objects.all fun q => decide (q.id < p.id)) && addPreOK (applyOp w (.add p)) ops
  | op :: ops => addPreOK (applyOp w op) ops

theorem applyOp_ids_sorted (w : PhysicsWorld) (op : WorldOp)
    (hs : (w.objects.map Particle.id).Pairwise (· < ·))
    (hpre : ∀ p, op = .add p → ∀ q ∈ w.objects, q.id < p.id) :
    ((applyOp w op).objects.map Particle.id).Pairwise (· < ·) := by
  cases op with
  | add p =>
    simp only [applyOp, PhysicsWorld.add_object, List.map_append, List.map_cons,
      List.map_nil, List.pairwise_append]
    refine ⟨hs, List.pairwise_singleton _ _, ?_⟩
    intro a ha b hb
    simp only [List.mem_singleton] at hb
    simp only [List.mem_map] at ha
    obtain ⟨q, hq, rfl⟩ := ha
    exact hb ▸ hpre p rfl q hq
  | clear => simp [applyOp, PhysicsWorld.clear]
  | step dt =>
    simp only [applyOp, PhysicsWorld.step, List.map_map]
    exact hs
  | impulse dx dy =>
    simp only [applyOp, PhysicsWorld.add_impulses, List.map_map]
    exact hs
  | addStick s => exact hs
  | allocId => exact hs
  | setBounds b =>
    simp only [applyOp, PhysicsWorld.set_bounds]
    split <;> exact hs

theorem applyOps_ids_sorted : ∀ (ops : List WorldOp) (w : PhysicsWorld),
    (w.objects.map Particle.id).Pairwise (· < ·) →
    addPreOK w ops = true →
    ((applyOps w ops).objects.map Particle.id).Pairwise (· < ·) := by
  intro ops
  induction ops with
  | nil => intro w hs _; exact hs
  | cons op rest ih =>
    intro w hs hpre
    cases op with
    | add p =>
      simp only [addPreOK, Bool.and_eq_true, List.all_eq_true, decide_eq_true_eq] at hpre
      exact ih _ (applyOp_ids_sorted w (.add p) hs
        (fun p' hp' q hq => by cases hp'; exact hpre.1 q hq)) hpre.2
    | clear => exact ih _ (applyOp_ids_sorted w .clear hs (by simp)) hpre
    | step dt => exact ih _ (applyOp_ids_sorted w (.step dt) hs (by simp)) hpre
    | impulse dx dy => exact ih _ (applyOp_ids_sorted w (.impulse dx dy) hs (by simp)) hpre
    | addStick s => exact ih _ (applyOp_ids_sorted w (.addStick s) hs (by simp)) hpre
    | allocId => exact ih _ (applyOp_ids_sorted w .allocId hs (by simp)) hpre
    | setBounds b => exact ih _ (applyOp_ids_sorted w (.setBounds b) hs (by simp)) hpre

theorem stepParticle_id (g : ℚ) (b : Vec2) (s dt : ℚ) (p : Particle) :
    (stepParticle g b s dt p).id = p.id := rfl

theorem add_impulse_id (p : Particle) (ax ay : ℚ) :
    (p.add_impulse ax ay).id = p.id := rfl

/-- The ids a run inserts (in insertion order), starting from the id list
`cur`: `add_object` appends at the end, `clear` resets, every other call
leaves the inserted sequence alone. -/
def runIds (cur : List Nat) : List WorldOp → List Nat
  | [] => cur
  | .add p :: ops => runIds (cur ++ [p.id]) ops
  | .clear :: ops => runIds [] ops
  | _ :: ops => runIds cur ops

theorem applyOps_ids_trace : ∀ (ops : List WorldOp) (w : PhysicsWorld),
    (applyOps w ops).objects.map Particle.id = runIds (w.objects.map Particle.id) ops := by
  intro ops
  induction ops with
  | nil => intro w; rfl
  | cons op rest ih =>
    intro w
    cases op with
    | add p =>
      rw [show applyOps w (.add p :: rest) = applyOps (w.add_object p) rest from rfl,
        ih (w.add_object p),
        show runIds (w.objects.map Particle.id) (.add p :: rest)
          = runIds (w.objects.map Particle.id ++ [p.id]) rest from rfl]
      congr 1
      simp [PhysicsWorld.add_object]
    | clear =>
      rw [show applyOps w (.clear :: rest) = applyOps w.clear rest from rfl, ih w.clear]
      rfl
    | step dt =>
      rw [show applyOps w (.step dt :: rest) = applyOps (w.step dt) rest from rfl,
        ih (w.step dt),
        show runIds (w.objects.map Particle.id) (.step dt :: rest)
          = runIds (w.objects.map Particle.id) rest from rfl]
      congr 1
      simp only [PhysicsWorld.step, List.map_map]
      exact List.map_congr_left (fun p _ => rfl)
    | impulse dx dy =>
      rw [show applyOps w (.impulse dx dy :: rest) = applyOps (w.add_impulses dx dy) rest
            from rfl,
        ih (w.add_impulses dx dy),
        show runIds (w.objects.map Particle.id) (.impulse dx dy :: rest)
          = runIds (w.objects.map Particle.id) rest from rfl]
      congr 1
      simp only [PhysicsWorld.add_impulses, List.map_map]
      exact List.map_congr_left (fun p _ => rfl)
    | addStick s =>
      rw [show applyOps w (.addStick s :: rest) = applyOps (w.add_stick s) rest from rfl,
        ih (w.add_stick s)]
      rfl
    | allocId =>
      rw [show applyOps w (.allocId :: rest) = applyOps w.next_id.2 rest from rfl,
        ih w.next_id.2]
      rfl
    | setBounds b =>
      rw [show applyOps w (.setBounds b :: rest) = applyOps (w.set_bounds b) rest from rfl,
        ih (w.set_bounds b),
        show runIds (w.objects.map Particle.id) (.setBounds b :: rest)
          = runIds (w.objects.map Particle.id) rest from rfl]
      congr 1
      simp only [PhysicsWorld.set_bounds]
      split <;> rfl

/-- C5.  Starting from a freshly constructed world and running any sequence
of `add_object` / `clear` / `step` / `add_impulses` / `add_stick` / `next_id`
/ `set_bounds` calls in which every `add_object` appends an id strictly
greater than all present ids, the particle sequence stays strictly ascending
by id, and its order is exactly insertion order (the ids inserted since the
last `clear`, in the order the `add_object` calls were made). -/
theorem particle_order_invariant (g : ℚ) (b : Vec2) (s : ℚ) (ops : List WorldOp)
    (hpre : addPreOK (PhysicsWorld.new g b s) ops = true) :
    ((applyOps (PhysicsWorld.new g b s) ops).objects.map Particle.id).Pairwise (· < ·) ∧
    (applyOps (PhysicsWorld.new g b s) ops).objects.map Particle.id = runIds [] ops :=
  ⟨applyOps_ids_sorted ops _ (by simp [PhysicsWorld.new]) hpre,
   applyOps_ids_trace ops _⟩

/-- Witness for C5: add ids 0 and 5, step, impulse, clear, then add id 2. -/
theorem particle_order_invariant_witness :
    ((applyOps (PhysicsWorld.new (-10) ⟨800, 600⟩ 300)
        [.add (Particle.new ⟨0, 0⟩ 1 1 ⟨0, 0, 0, 1⟩ 0),
         .add (Particle.new ⟨1, 1⟩ 1 1 ⟨0, 0, 0, 1⟩ 5),
         .step 1, .impulse 2 3, .allocId, .clear,
         .add (Particle.new ⟨2, 2⟩ 1 1 ⟨0, 0, 0, 1⟩ 2)]).objects.map
      Particle.id).Pairwise (· < ·) ∧
    (applyOps (PhysicsWorld.new (-10) ⟨800, 600⟩ 300)
        [.add (Particle.new ⟨0, 0⟩ 1 1 ⟨0, 0, 0, 1⟩ 0),
         .add (Particle.new ⟨1, 1⟩ 1 1 ⟨0, 0, 0, 1⟩ 5),
         .step 1, .impulse 2 3, .allocId, .clear,
         .add (Particle.new ⟨2, 2⟩ 1 1 ⟨0, 0, 0, 1⟩ 2)]).objects.map
      Particle.id = runIds []
        [.add (Particle.new ⟨0, 0⟩ 1 1 ⟨0, 0, 0, 1⟩ 0),
         .add (Particle.new ⟨1, 1⟩ 1 1 ⟨0, 0, 0, 1⟩ 5),
         .step 1, .impulse 2 3, .allocId, .clear,
         .add (Particle.new ⟨2, 2⟩ 1 1 ⟨0, 0, 0, 1⟩ 2)] :=
  particle_order_invariant (-10) ⟨800, 600⟩ 300 _ (by decide)

/-! ### C6: id allocation -/

/-- The values returned by the `next_id` calls of a run, in order. -/
def allocValues (w : PhysicsWorld) : List WorldOp → List Nat
  | [] => []
  | .allocId :: ops => w.next_id.1 :: allocValues w.next_id.2 ops
  | op :: ops => allocValues (applyOp w op) ops

/-- How many `next_id` calls a run contains. -/
def countAlloc : List WorldOp → Nat
  | [] => 0
  | .allocId :: ops => countAlloc ops + 1
  | _ :: ops => countAlloc ops

theorem U32_eq : U32 = 4294967296 := by norm_num [U32]

theorem applyOp_current_id (w : PhysicsWorld) (op : WorldOp) (h : op ≠ .allocId) :
    (applyOp w op).current_id = w.current_id := by
  cases op with
  | setBounds b => simp only [applyOp, PhysicsWorld.set_bounds]; split <;> rfl
  | allocId => exact absurd rfl h
  | _ => rfl

theorem allocValues_formula : ∀ (ops : List WorldOp) (w : PhysicsWorld),
    w.current_id < U32 →
    allocValues w ops =
      (List.range (countAlloc ops)).map (fun k => (w.current_id + k) % U32) := by
  intro ops
  induction ops with
  | nil => intro w _; rfl
  | cons op rest ih =>
    intro w hw
    cases op with
    | allocId =>
      have hpos : 0 < U32 := by rw [U32_eq]; omega
      have hw' : w.next_id.2.current_id < U32 := Nat.mod_lt _ hpos
      rw [show allocValues w (.allocId :: rest) =
            w.next_id.1 :: allocValues w.next_id.2 rest from rfl,
          ih w.next_id.2 hw',
          show countAlloc (WorldOp.allocId :: rest) = countAlloc rest + 1 from rfl,
          List.range_succ_eq_map, List.map_cons, List.map_map]
      congr 1
      · show w.current_id = (w.current_id + 0) % U32
        rw [Nat.add_zero, Nat.mod_eq_of_lt hw]
      · refine List.map_congr_left ?_
        intro k _
        show (w.next_id.2.current_id + k) % U32 = (w.current_id + Nat.succ k) % U32
        rw [show w.next_id.2.current_id = (w.current_id + 1) % U32 from rfl,
          Nat.mod_add_mod]
        congr 1
        omega
    | add p =>
      have hcur : (applyOp w (WorldOp.add p)).current_id = w.current_id :=
        applyOp_current_id w _ (by simp)
      have hres := ih (applyOp w (.add p)) (by rwa [hcur])
      rw [hcur] at hres
      simpa only [allocValues, countAlloc] using hres
    | clear =>
      have hcur : (applyOp w WorldOp.clear).current_id = w.current_id :=
        applyOp_current_id w _ (by simp)
      have hres := ih (applyOp w .clear) (by rwa [hcur])
      rw [hcur] at hres
      simpa only [allocValues, countAlloc] using hres
    | step dt =>
      have hcur : (applyOp w (WorldOp.step dt)).current_id = w.current_id :=
        applyOp_current_id w _ (by simp)
      have hres := ih (applyOp w (.step dt)) (by rwa [hcur])
      rw [hcur] at hres
      simpa only [allocValues, countAlloc] using hres
    | impulse dx dy =>
      have hcur : (applyOp w (WorldOp.impulse dx dy)).current_id = w.current_id :=
        applyOp_current_id w _ (by simp)
      have hres := ih (applyOp w (.impulse dx dy)) (by rwa [hcur])
      rw [hcur] at hres
      simpa only [allocValues, countAlloc] using hres
    | addStick s =>
      have hcur : (applyOp w (WorldOp.addStick s)).current_id = w.current_id :=
        applyOp_current_id w _ (by simp)
      have hres := ih (applyOp w (.addStick s)) (by rwa [hcur])
      rw [hcur] at hres
      simpa only [allocValues, countAlloc] using hres
    | setBounds b =>
      have hcur : (applyOp w (WorldOp.setBounds b)).current_id = w.current_id :=
        applyOp_current_id w _ (by simp)
      have hres := ih (applyOp w (.setBounds b)) (by rwa [hcur])
      rw [hcur] at hres
      simpa only [allocValues, countAlloc] using hres

theorem countAlloc_replicate (n : Nat) :
    countAlloc (List.replicate n WorldOp.allocId) = n := by
  induction n with
  | zero => rfl
  | succ m ih => simp only [List.replicate, countAlloc, ih]

/-- C6 (amended).  Starting from a fresh world, any run whose number `N` of
`next_id` calls is at most `2^32` yields exactly the values `0, 1, ..., N-1`
in order — strictly increasing, starting at 0, no repeats — regardless of the
`add_object` / `clear` / other calls interleaved between them. -/
theorem allocate_id_monotone (g : ℚ) (b : Vec2) (s : ℚ) (ops : List WorldOp)
    (hcount : countAlloc ops ≤ U32) :
    allocValues (PhysicsWorld.new g b s) ops = List.range (countAlloc ops) := by
  have h0 : (PhysicsWorld.new g b s).current_id < U32 := by
    show 0 < U32
    rw [U32_eq]; omega
  rw [allocValues_formula ops _ h0]
  have hk0 : ∀ k ∈ List.range (countAlloc ops),
      ((PhysicsWorld.new g b s).current_id + k) % U32 = k := by
    intro k hk
    rw [List.mem_range] at hk
    show (0 + k) % U32 = k
    rw [Nat.zero_add, Nat.mod_eq_of_lt (by omega)]
  rw [List.map_congr_left hk0]
  simp

/-- Witness for C6: three allocations interleaved with an add and a clear. -/
theorem allocate_id_monotone_witness :
    allocValues (PhysicsWorld.new (-10) ⟨800, 600⟩ 300)
        [.allocId, .add (Particle.new ⟨0, 0⟩ 1 1 ⟨0, 0, 0, 1⟩ 0), .allocId, .clear, .allocId]
      = List.range (countAlloc
        [.allocId, .add (Particle.new ⟨0, 0⟩ 1 1 ⟨0, 0, 0, 1⟩ 0), .allocId, .clear,
         .allocId]) :=
  allocate_id_monotone (-10) ⟨800, 600⟩ 300 _ (by rw [U32_eq]; decide)

/-- Counterexample to C6 as stated (for every `N`): the id counter is a `u32`,
so the `2^32 + 1`-st allocation from a fresh world returns `0` again and the
returned values are not strictly increasing. -/
theorem allocate_id_monotone_cex :
    ¬ (allocValues (PhysicsWorld.new 0 ⟨0, 0⟩ 0)
        (List.replicate (U32 + 1) WorldOp.allocId)).Pairwise (· < ·) := by
  intro h
  have h0 : (PhysicsWorld.new 0 ⟨0, 0⟩ 0).current_id < U32 := by
    show 0 < U32
    rw [U32_eq]; omega
  rw [allocValues_formula _ _ h0, countAlloc_replicate] at h
  have hnd : ((List.range (U32 + 1)).map
      (fun k => ((PhysicsWorld.new 0 ⟨0, 0⟩ 0).current_id + k) % U32)).Nodup :=
    h.imp ne_of_lt
  rw [List.nodup_map_iff_inj_on (List.nodup_range (U32 + 1))] at hnd
  have heq : ((PhysicsWorld.new 0 ⟨0, 0⟩ 0).current_id + 0) % U32
      = ((PhysicsWorld.new 0 ⟨0, 0⟩ 0).current_id + U32) % U32 := by
    show (0 + 0) % U32 = (0 + U32) % U32
    simp [Nat.mod_self]
  have := hnd 0 (List.mem_range.mpr (by omega)) U32 (List.mem_range.mpr (by omega)) heq
  rw [U32_eq] at this
  omega

end NannouPhysics
